import Mathlib

/-!
Shallow embedding of `src/python/spotify_analyzer.py` (grassmeight/spotify-timeline).

Timestamps are modelled as seconds since the Unix epoch (a natural number);
the pandas `Timedelta(minutes=30)` session threshold is 1800 seconds.
Rational numbers stand in for the floating-point arithmetic of the source;
all aggregations (sums, means, counts, value_counts, groupby, rolling means)
are translated operation by operation from the pandas pipeline.
-/

namespace Spotify

/-- One normalized listening record, the row type of the DataFrame produced by
`load_spotify_data`.  Field names follow the source columns.  `ts` is seconds
since the Unix epoch; the three metadata names are nullable (podcast or ad
rows carry nulls there). -/
structure PlayEvent where
  ts : Nat
  ms_played : Int
  master_metadata_track_name : Option String
  master_metadata_album_artist_name : Option String
  master_metadata_album_album_name : Option String
  platform : String
  skipped : Bool
  offline : Bool
  shuffle : Bool
deriving DecidableEq

/-- Raw input record as found in the JSON file, before `pd.to_datetime`:
the timestamp is still a string. -/
structure RawRecord where
  ts : String
  ms_played : Int
  master_metadata_track_name : Option String
  master_metadata_album_artist_name : Option String
  master_metadata_album_album_name : Option String
  platform : String
  skipped : Bool
  offline : Bool
  shuffle : Bool
deriving DecidableEq

/-- Error raised by `pd.to_datetime(..., errors=raise)` when a timestamp
string cannot be parsed; the pandas message reports the failing position. -/
structure MalformedRecordError where
  index : Nat
deriving DecidableEq

/-- The `ValueError` raised by `Series.idxmax()` on an empty series
(the only exception reachable inside `get_comprehensive_stats`). -/
inductive AnalyzerError where
  | emptySeriesIdxmax
deriving DecidableEq

/-- Column conversion `pd.to_datetime(df.ts)` with the default
`errors=raise` policy: every string is parsed, and the first unparsable one
aborts the whole conversion, reporting its position.  The parser itself is a
parameter (the source delegates it to the pandas datetime grammar). -/
def to_datetime (parse : String → Option Nat) : List String → Except MalformedRecordError (List Nat)
  | [] => Except.ok []
  | s :: rest =>
    match parse s with
    | none => Except.error ⟨0⟩
    | some t =>
      match to_datetime parse rest with
      | Except.error e => Except.error ⟨e.index + 1⟩
      | Except.ok ts => Except.ok (t :: ts)

/-- Translation of `load_spotify_data`: read the records and convert the `ts`
column; a timestamp parse failure aborts the load with no partial result. -/
def load_spotify_data (parse : String → Option Nat) (data : List RawRecord) :
    Except MalformedRecordError (List PlayEvent) :=
  match to_datetime parse (data.map RawRecord.ts) with
  | Except.error e => Except.error e
  | Except.ok tss =>
    Except.ok ((data.zip tss).map (fun p =>
      { ts := p.2
        ms_played := p.1.ms_played
        master_metadata_track_name := p.1.master_metadata_track_name
        master_metadata_album_artist_name := p.1.master_metadata_album_artist_name
        master_metadata_album_album_name := p.1.master_metadata_album_album_name
        platform := p.1.platform
        skipped := p.1.skipped
        offline := p.1.offline
        shuffle := p.1.shuffle }))

/-- Accessor `df.ts.dt.date`, as days since the Unix epoch. -/
def dateOf (ts : Nat) : Nat := ts / 86400

/-- Accessor `df.ts.dt.hour`: hour of day, 0 to 23. -/
def hourOf (ts : Nat) : Nat := ts % 86400 / 3600

/-- Accessor `df.ts.dt.day_name()`: weekday name (1970-01-01 was a Thursday). -/
def dayNameOf (ts : Nat) : String :=
  ["Thursday", "Friday", "Saturday", "Sunday", "Monday", "Tuesday", "Wednesday"].getD
    (dateOf ts % 7) ""

/-- Accessor `df.ts.dt.month`: Gregorian month 1 to 12, computed with the
standard civil-from-days algorithm. -/
def monthOf (ts : Nat) : Nat :=
  let z := dateOf ts + 719468
  let doe := z % 146097
  let yoe := (doe - doe / 1460 + doe / 36524 - doe / 146096) / 365
  let doy := doe - (365 * yoe + yoe / 4 - yoe / 100)
  let mp := (5 * doy + 2) / 153
  if mp < 10 then mp + 3 else mp - 9

/-- Accessor `df.ts.dt.year`, via the same civil-from-days algorithm. -/
def yearOf (ts : Nat) : Nat :=
  let z := dateOf ts + 719468
  let era := z / 146097
  let doe := z % 146097
  let yoe := (doe - doe / 1460 + doe / 36524 - doe / 146096) / 365
  if monthOf ts ≤ 2 then yoe + era * 400 + 1 else yoe + era * 400

/-- Distinct values of a column in order of first occurrence: the key order
produced by the pandas hash-table passes (`value_counts`, `groupby`,
`nunique`) before any explicit sort. -/
def uniqueFirst [DecidableEq α] : List α → List α
  | [] => []
  | a :: l => a :: (uniqueFirst l).filter (fun b => decide (b ≠ a))

/-- Translation of `Series.value_counts()`: one entry per distinct value with
its multiplicity, sorted by descending count with a stable sort, so tied
counts keep first-occurrence order, as the pandas sort does. -/
def value_counts [DecidableEq α] (l : List α) : List (α × Nat) :=
  List.insertionSort (fun p q => q.2 ≤ p.2)
    ((uniqueFirst l).map (fun a => (a, l.count a)))

/-- Translation of `Series.sort_index()` on a natural-number index: entries
reordered by ascending key. -/
def sort_index (l : List (Nat × Nat)) : List (Nat × Nat) :=
  List.insertionSort (fun p q => p.1 ≤ q.1) l

/-- Fold underlying `idxmax`: keeps the current label unless a strictly
greater value appears (so the first maximum wins, as in pandas). -/
def idxmaxGo (a : α) (v : Nat) : List (α × Nat) → α
  | [] => a
  | (b, w) :: rest => if v < w then idxmaxGo b w rest else idxmaxGo a v rest

/-- Translation of `Series.idxmax()`: label of the first maximal value;
`none` models the `ValueError` raised on an empty series. -/
def idxmax : List (α × Nat) → Option α
  | [] => none
  | (a, v) :: rest => some (idxmaxGo a v rest)

/-- Python `round`-to-integer, which rounds halves to the nearest even
integer, modelled exactly on rationals. -/
def roundHalfEven (q : ℚ) : Int :=
  if q - ⌊q⌋ < 1 / 2 then ⌊q⌋
  else if 1 / 2 < q - ⌊q⌋ then ⌊q⌋ + 1
  else if ⌊q⌋ % 2 = 0 then ⌊q⌋ else ⌊q⌋ + 1

/-- Python `round(x, 2)` as used throughout the source. -/
def round2 (q : ℚ) : ℚ := (roundHalfEven (q * 100) : ℚ) / 100

/-- `Series.mean()` of a rational column: sum over length. -/
def seriesMean (xs : List ℚ) : ℚ := xs.sum / (xs.length : ℚ)

/-- Translation of `df.sort_values(ts)`: rows reordered by ascending
timestamp. -/
def sort_values (l : List PlayEvent) : List PlayEvent :=
  List.insertionSort (fun a b => a.ts ≤ b.ts) l

/-- Walk translating `time_diff = ts.diff(); new_session = time_diff > 30min;
session_id = new_session.cumsum()` past the first row: each row's id is the
previous id, incremented exactly when the gap to the previous row strictly
exceeds 1800 seconds. -/
def sessionIdsGo (prev : PlayEvent) (cur : Nat) : List PlayEvent → List Nat
  | [] => []
  | e :: rest =>
    let cur2 := if 1800 < e.ts - prev.ts then cur + 1 else cur
    cur2 :: sessionIdsGo e cur2 rest

/-- Session ids of the whole (sorted) frame; the first row's `time_diff` is
`NaT`, which compares `False`, so it gets id 0. -/
def sessionIds : List PlayEvent → List Nat
  | [] => []
  | e :: rest => 0 :: sessionIdsGo e 0 rest

/-- One `groupby` bucket: the rows whose session id equals `i`. -/
def groupKey (l : List PlayEvent) (ids : List Nat) (i : Nat) : List PlayEvent :=
  ((l.zip ids).filter (fun p => decide (p.2 = i))).map Prod.fst

/-- Translation of `df_sorted.groupby(session_id)`: rows grouped by equal
session id, one group per distinct id in order of appearance. -/
def groupBySessionId (l : List PlayEvent) : List (List PlayEvent) :=
  (uniqueFirst (sessionIds l)).map (groupKey l (sessionIds l))

/-- The session partition the pipeline computes: sort by timestamp, then
group by the cumulative-sum session id. -/
def sessionPartition (l : List PlayEvent) : List (List PlayEvent) :=
  groupBySessionId (sort_values l)

/-- Translation of `groupby(session_id).agg(ms_played sum, track_name count)`:
per session, total milliseconds and the count of non-null track names
(the pandas `count` aggregator skips nulls). -/
def sessionAgg (l : List PlayEvent) : List (Int × Nat) :=
  (sessionPartition l).map (fun s =>
    ((s.map PlayEvent.ms_played).sum,
     s.countP (fun e => e.master_metadata_track_name.isSome)))

/-- The `total_stats` block of the report. -/
structure TotalStats where
  total_listening_hours : ℚ
  total_listening_minutes : ℚ
  total_tracks_played : Nat
  unique_artists : Nat
  unique_albums : Nat
  unique_tracks : Nat
  average_track_length_seconds : ℚ
deriving DecidableEq

/-- The `listening_patterns` block of the report. -/
structure ListeningPatterns where
  peak_hour : Nat
  peak_day : String
  hourly_distribution : List (Nat × Nat)
  daily_distribution : List (String × Nat)
  monthly_distribution : List (Nat × Nat)
deriving DecidableEq

/-- The `behavior_stats` block of the report. -/
structure BehaviorStats where
  skip_rate : ℚ
  offline_rate : ℚ
  shuffle_rate : ℚ
deriving DecidableEq

/-- The `session_stats` block of the report. -/
structure SessionStats where
  average_session_minutes : ℚ
  average_tracks_per_session : ℚ
  total_sessions : Nat
deriving DecidableEq

/-- The `top_content` block of the report. -/
structure TopContent where
  top_artists : List (String × Nat)
  top_tracks : List (String × Nat)
  top_albums : List (String × Nat)
deriving DecidableEq

/-- The full dictionary returned by `get_comprehensive_stats`. -/
structure Stats where
  total_stats : TotalStats
  listening_patterns : ListeningPatterns
  behavior_stats : BehaviorStats
  session_stats : SessionStats
  platform_stats : List (String × Nat)
  top_content : TopContent
deriving DecidableEq

/-- Lift the `idxmax` empty-series `ValueError` into `Except`. -/
def orIdxmaxError : Option α → Except AnalyzerError α
  | some a => Except.ok a
  | none => Except.error AnalyzerError.emptySeriesIdxmax

/-- Translation of `get_comprehensive_stats`, field by field in source order.
The only fallible steps are the two `idxmax` calls; every other operation is
total on a typed frame. -/
def get_comprehensive_stats (df : List PlayEvent) : Except AnalyzerError Stats := do
  let total_ms : Int := (df.map PlayEvent.ms_played).sum
  let total_hours : ℚ := (total_ms : ℚ) / (1000 * 60 * 60)
  let total_minutes : ℚ := (total_ms : ℚ) / (1000 * 60)
  let total_tracks : Nat := df.length
  let unique_artists : Nat :=
    (uniqueFirst (df.filterMap PlayEvent.master_metadata_album_artist_name)).length
  let unique_albums : Nat :=
    (uniqueFirst (df.filterMap PlayEvent.master_metadata_album_album_name)).length
  let unique_tracks : Nat :=
    (uniqueFirst (df.filterMap PlayEvent.master_metadata_track_name)).length
  let hourly_distribution := sort_index (value_counts (df.map (fun e => hourOf e.ts)))
  let daily_distribution := value_counts (df.map (fun e => dayNameOf e.ts))
  let monthly_distribution := sort_index (value_counts (df.map (fun e => monthOf e.ts)))
  let peak_hour ← orIdxmaxError (idxmax hourly_distribution)
  let peak_day ← orIdxmaxError (idxmax daily_distribution)
  let skip_rate : ℚ := ((df.countP PlayEvent.skipped : ℚ) / (df.length : ℚ)) * 100
  let offline_rate : ℚ := ((df.countP PlayEvent.offline : ℚ) / (df.length : ℚ)) * 100
  let shuffle_rate : ℚ := ((df.countP PlayEvent.shuffle : ℚ) / (df.length : ℚ)) * 100
  let platform_distribution := value_counts (df.map PlayEvent.platform)
  let top_artists :=
    (value_counts (df.filterMap PlayEvent.master_metadata_album_artist_name)).take 10
  let top_tracks :=
    (value_counts (df.filterMap PlayEvent.master_metadata_track_name)).take 10
  let top_albums :=
    (value_counts (df.filterMap PlayEvent.master_metadata_album_album_name)).take 10
  let sessions := sessionAgg df
  let avg_session_minutes : ℚ :=
    seriesMean (sessions.map (fun p => (p.1 : ℚ))) / (1000 * 60)
  let avg_tracks_per_session : ℚ := seriesMean (sessions.map (fun p => (p.2 : ℚ)))
  Except.ok
    { total_stats :=
        { total_listening_hours := round2 total_hours
          total_listening_minutes := round2 total_minutes
          total_tracks_played := total_tracks
          unique_artists := unique_artists
          unique_albums := unique_albums
          unique_tracks := unique_tracks
          average_track_length_seconds :=
            round2 ((total_ms : ℚ) / (df.length : ℚ) / 1000) }
      listening_patterns :=
        { peak_hour := peak_hour
          peak_day := peak_day
          hourly_distribution := hourly_distribution
          daily_distribution := daily_distribution
          monthly_distribution := monthly_distribution }
      behavior_stats :=
        { skip_rate := round2 skip_rate
          offline_rate := round2 offline_rate
          shuffle_rate := round2 shuffle_rate }
      session_stats :=
        { average_session_minutes := round2 avg_session_minutes
          average_tracks_per_session := round2 avg_tracks_per_session
          total_sessions := sessions.length }
      platform_stats := platform_distribution
      top_content :=
        { top_artists := top_artists
          top_tracks := top_tracks
          top_albums := top_albums } }

/-- The `daily_stats` half of the trends output: parallel arrays, one slot per
distinct calendar date. -/
structure DailySeries where
  dates : List Nat
  hours_played : List ℚ
  tracks_played : List Nat
  skip_rate : List ℚ
  offline_rate : List ℚ
  shuffle_rate : List ℚ
deriving DecidableEq

/-- The `rolling_averages` half of the trends output; `none` models the `NaN`
slots of an unfilled rolling window. -/
structure RollingSeries where
  dates : List Nat
  hours_played : List (Option ℚ)
  tracks_played : List (Option ℚ)
  skip_rate : List (Option ℚ)
  offline_rate : List (Option ℚ)
  shuffle_rate : List (Option ℚ)
deriving DecidableEq

/-- The dictionary returned by `analyze_listening_trends`. -/
structure Trends where
  daily_stats : DailySeries
  rolling_averages : RollingSeries
deriving DecidableEq

/-- Keys of `df.groupby(df.ts.dt.date)`: the distinct dates present, sorted
ascending (the pandas groupby sorts its keys). -/
def trendDates (df : List PlayEvent) : List Nat :=
  List.insertionSort (fun a b => a ≤ b) (uniqueFirst (df.map (fun e => dateOf e.ts)))

/-- The rows of one groupby bucket: the events falling on a given date. -/
def eventsOn (df : List PlayEvent) (d : Nat) : List PlayEvent :=
  df.filter (fun e => decide (dateOf e.ts = d))

/-- Translation of `rolling(7).mean()` with the default `min_periods`: slots
0 to 5 are `NaN`; slot `i` from 6 on is the mean of the window of the 7
values ending at `i`. -/
def rollingMean7 (xs : List ℚ) : List (Option ℚ) :=
  (List.range xs.length).map (fun i =>
    if i + 1 < 7 then none else some (((xs.drop (i + 1 - 7)).take 7).sum / 7))

/-- Translation of `analyze_listening_trends`: per-date aggregates (sum of
`ms_played` converted to hours, count of non-null track names, mean of each
boolean flag), then the 7-slot rolling means over the same index. -/
def analyze_listening_trends (df : List PlayEvent) : Trends :=
  let dates := trendDates df
  let hours_played := dates.map (fun d =>
    (((eventsOn df d).map PlayEvent.ms_played).sum : ℚ) / (1000 * 60 * 60))
  let tracks_played := dates.map (fun d =>
    (eventsOn df d).countP (fun e => e.master_metadata_track_name.isSome))
  let skip_rate := dates.map (fun d =>
    ((eventsOn df d).countP PlayEvent.skipped : ℚ) / ((eventsOn df d).length : ℚ))
  let offline_rate := dates.map (fun d =>
    ((eventsOn df d).countP PlayEvent.offline : ℚ) / ((eventsOn df d).length : ℚ))
  let shuffle_rate := dates.map (fun d =>
    ((eventsOn df d).countP PlayEvent.shuffle : ℚ) / ((eventsOn df d).length : ℚ))
  { daily_stats :=
      { dates := dates
        hours_played := hours_played
        tracks_played := tracks_played
        skip_rate := skip_rate
        offline_rate := offline_rate
        shuffle_rate := shuffle_rate }
    rolling_averages :=
      { dates := dates
        hours_played := rollingMean7 hours_played
        tracks_played := rollingMean7 (tracks_played.map (fun n : Nat => (n : ℚ)))
        skip_rate := rollingMean7 skip_rate
        offline_rate := rollingMean7 offline_rate
        shuffle_rate := rollingMean7 shuffle_rate } }

/-- Session partition characterized structurally on the time-sorted list: cut
exactly where the gap to the previous event strictly exceeds 1800 seconds.
Proved below to coincide with the id-based grouping of the pipeline. -/
def splitSessions : List PlayEvent → List (List PlayEvent)
  | [] => []
  | [e] => [[e]]
  | e1 :: e2 :: rest =>
    match splitSessions (e2 :: rest) with
    | [] => [[e1]]
    | s :: ss =>
      if 1800 < e2.ts - e1.ts then [e1] :: s :: ss else (e1 :: s) :: ss

/-! ### Helper lemmas about `uniqueFirst` and `value_counts` -/

theorem mem_uniqueFirst [DecidableEq α] {l : List α} {b : α} :
    b ∈ uniqueFirst l ↔ b ∈ l := by
  induction l with
  | nil => simp [uniqueFirst]
  | cons a l ih =>
    rw [uniqueFirst]
    constructor
    · intro h
      rcases List.mem_cons.mp h with h | h
      · exact h ▸ List.mem_cons_self _ _
      · exact List.mem_cons_of_mem _ (ih.mp (List.mem_of_mem_filter h))
    · intro h
      rcases List.mem_cons.mp h with h | h
      · exact h ▸ List.mem_cons_self _ _
      · by_cases hba : b = a
        · exact hba ▸ List.mem_cons_self _ _
        · exact List.mem_cons_of_mem _
            (List.mem_filter.mpr ⟨ih.mpr h, by simp [hba]⟩)

theorem nodup_uniqueFirst [DecidableEq α] (l : List α) : (uniqueFirst l).Nodup := by
  induction l with
  | nil => simp [uniqueFirst]
  | cons a l ih =>
    rw [uniqueFirst]
    refine List.nodup_cons.mpr ⟨?_, ih.filter _⟩
    intro hmem
    have h2 := (List.mem_filter.mp hmem).2
    simp at h2

theorem sum_map_filter_ne [DecidableEq α] (f : α → Nat) (a : α) :
    ∀ u : List α, u.Nodup → a ∈ u →
      (u.map f).sum = f a + ((u.filter (fun b => decide (b ≠ a))).map f).sum := by
  intro u
  induction u with
  | nil =>
    intro _ h
    simp at h
  | cons x rest ih =>
    intro hnd hmem
    rcases List.mem_cons.mp hmem with rfl | hmem2
    · have hnotin : a ∉ rest := (List.nodup_cons.mp hnd).1
      have hfe : rest.filter (fun b => decide (b ≠ a)) = rest := by
        apply List.filter_eq_self.mpr
        intro b hb
        simp only [ne_eq, decide_eq_true_eq]
        exact fun hba => hnotin (hba ▸ hb)
      rw [List.map_cons, List.sum_cons, List.filter_cons, if_neg (by simp), hfe]
    · have hxa : x ≠ a := by
        rintro rfl
        exact (List.nodup_cons.mp hnd).1 hmem2
      have hrec := ih (List.nodup_cons.mp hnd).2 hmem2
      rw [List.map_cons, List.sum_cons, hrec, List.filter_cons,
        if_pos (by simp [hxa]), List.map_cons, List.sum_cons]
      omega

theorem sum_counts_uniqueFirst [DecidableEq α] (l : List α) :
    ((uniqueFirst l).map (fun a => l.count a)).sum = l.length := by
  induction l with
  | nil => simp [uniqueFirst]
  | cons a l ih =>
    rw [uniqueFirst, List.map_cons, List.sum_cons]
    have hcong : ((uniqueFirst l).filter (fun b => decide (b ≠ a))).map
          (fun b => (a :: l).count b) =
        ((uniqueFirst l).filter (fun b => decide (b ≠ a))).map (fun b => l.count b) := by
      apply List.map_congr_left
      intro b hb
      have hbne : b ≠ a := by
        have h2 := (List.mem_filter.mp hb).2
        simpa using h2
      exact List.count_cons_of_ne hbne l
    rw [hcong, List.count_cons_self, List.length_cons]
    by_cases ha : a ∈ l
    · have hmem : a ∈ uniqueFirst l := mem_uniqueFirst.mpr ha
      have hsplit := sum_map_filter_ne (fun b => l.count b) a (uniqueFirst l)
        (nodup_uniqueFirst l) hmem
      rw [ih] at hsplit
      simp only at hsplit ⊢
      omega
    · have hfe : (uniqueFirst l).filter (fun b => decide (b ≠ a)) = uniqueFirst l := by
        apply List.filter_eq_self.mpr
        intro b hb
        have hbl : b ∈ l := mem_uniqueFirst.mp hb
        simp only [ne_eq, decide_eq_true_eq]
        intro hba
        exact ha (hba ▸ hbl)
      rw [hfe, ih, List.count_eq_zero.mpr ha]
      omega

theorem sum_snd_value_counts [DecidableEq α] (l : List α) :
    ((value_counts l).map Prod.snd).sum = l.length := by
  have hperm : ((value_counts l).map Prod.snd).Perm
      (((uniqueFirst l).map (fun a => (a, l.count a))).map Prod.snd) :=
    (List.perm_insertionSort _ _).map Prod.snd
  rw [hperm.sum_eq, List.map_map]
  exact sum_counts_uniqueFirst l

theorem sum_snd_sort_index (l : List (Nat × Nat)) :
    ((sort_index l).map Prod.snd).sum = (l.map Prod.snd).sum :=
  ((List.perm_insertionSort _ _).map Prod.snd).sum_eq

theorem length_value_counts [DecidableEq α] (l : List α) :
    (value_counts l).length = (uniqueFirst l).length := by
  rw [value_counts, (List.perm_insertionSort _ _).length_eq, List.length_map]

theorem length_uniqueFirst_eq_card [DecidableEq α] (l : List α) :
    (uniqueFirst l).length = l.toFinset.card := by
  have h1 : (uniqueFirst l).toFinset = l.toFinset := by
    ext a
    simp [List.mem_toFinset, mem_uniqueFirst]
  rw [← h1, List.toFinset_card_of_nodup (nodup_uniqueFirst l)]

theorem length_rollingMean7 (xs : List ℚ) : (rollingMean7 xs).length = xs.length := by
  simp [rollingMean7]

/-! ### Claim C1 -/

/-- C1 counterexample: on the empty dataset the stats computation does not
return a report; `idxmax` of the empty hourly distribution raises, so, far
from degrading to zero counts and null rates, the pipeline fails. -/
theorem claim1_counterexample : (get_comprehensive_stats []).toOption = none := by rfl

/-- C1 (amended): for an empty input dataset the pipeline raises rather than
degrading gracefully: `get_comprehensive_stats` aborts with the empty-series
`idxmax` error, so no counts, rates or rankings are reported at all. -/
theorem claim1_empty_input_raises :
    get_comprehensive_stats [] = Except.error AnalyzerError.emptySeriesIdxmax := by rfl

/-! ### Claim C5 -/

theorem to_datetime_error (parse : String → Option Nat) (ss : List String)
    (h : ∃ s ∈ ss, parse s = none) :
    ∃ j sj, ss[j]? = some sj ∧ parse sj = none ∧
      to_datetime parse ss = Except.error ⟨j⟩ ∧
      ∀ k sk, k < j → ss[k]? = some sk → parse sk ≠ none := by
  induction ss with
  | nil => simp at h
  | cons s rest ih =>
    cases hp : parse s with
    | none =>
      refine ⟨0, s, by simp, hp, ?_, ?_⟩
      · simp [to_datetime, hp]
      · intro k sk hk
        omega
    | some t =>
      have hrest : ∃ x ∈ rest, parse x = none := by
        rcases h with ⟨x, hx, hxn⟩
        rcases List.mem_cons.mp hx with rfl | hx2
        · rw [hp] at hxn
          exact absurd hxn (by simp)
        · exact ⟨x, hx2, hxn⟩
      rcases ih hrest with ⟨j, sj, hget, hnone, herr, hfirst⟩
      refine ⟨j + 1, sj, by simpa using hget, hnone, ?_, ?_⟩
      · simp [to_datetime, hp, herr]
      · intro k sk hk hks
        cases k with
        | zero =>
          simp only [List.getElem?_cons_zero, Option.some.injEq] at hks
          rw [← hks, hp]
          simp
        | succ k2 =>
          simp only [List.getElem?_cons_succ] at hks
          exact hfirst k2 sk (by omega) hks

/-- C5: if any raw record's timestamp string fails to parse, the load aborts
with `MalformedRecordError` carrying the index of the (first) offending
record, and no partial list of events is produced. -/
theorem claim5_malformed_record (parse : String → Option Nat) (data : List RawRecord)
    (h : ∃ r ∈ data, parse r.ts = none) :
    ∃ j r, data[j]? = some r ∧ parse r.ts = none ∧
      load_spotify_data parse data = Except.error ⟨j⟩ ∧
      ∀ k rk, k < j → data[k]? = some rk → parse rk.ts ≠ none := by
  have hmap : ∃ s ∈ data.map RawRecord.ts, parse s = none := by
    rcases h with ⟨r, hr, hn⟩
    exact ⟨r.ts, List.mem_map_of_mem _ hr, hn⟩
  rcases to_datetime_error parse (data.map RawRecord.ts) hmap with
    ⟨j, sj, hget, hnone, herr, hfirst⟩
  rw [List.getElem?_map] at hget
  cases hdj : data[j]? with
  | none =>
    rw [hdj] at hget
    exact Option.noConfusion hget
  | some r =>
    rw [hdj] at hget
    have hts : r.ts = sj := Option.some.inj hget
    refine ⟨j, r, hdj, hts ▸ hnone, ?_, ?_⟩
    · simp [load_spotify_data, herr]
    · intro k rk hk hkg
      have := hfirst k rk.ts hk ?_
      · exact this
      · rw [List.getElem?_map, hkg]
        rfl

/-- C5 witness: a concrete three-record load where the middle timestamp is
unparsable aborts with index 1. -/
theorem claim5_witness :
    ∃ j r,
      ([⟨"10", 1, none, none, none, "p", false, false, false⟩,
        ⟨"bad", 2, none, none, none, "p", false, false, false⟩,
        ⟨"30", 3, none, none, none, "p", false, false, false⟩] : List RawRecord)[j]? = some r ∧
      (fun s => if s = "bad" then none else some 7) r.ts = none ∧
      load_spotify_data (fun s => if s = "bad" then none else some 7)
        [⟨"10", 1, none, none, none, "p", false, false, false⟩,
         ⟨"bad", 2, none, none, none, "p", false, false, false⟩,
         ⟨"30", 3, none, none, none, "p", false, false, false⟩] = Except.error ⟨j⟩ ∧
      ∀ k rk, k < j →
        ([⟨"10", 1, none, none, none, "p", false, false, false⟩,
          ⟨"bad", 2, none, none, none, "p", false, false, false⟩,
          ⟨"30", 3, none, none, none, "p", false, false, false⟩] : List RawRecord)[k]? = some rk →
        (fun s => if s = "bad" then none else some 7) rk.ts ≠ none :=
  claim5_malformed_record (fun s => if s = "bad" then none else some 7) _
    ⟨⟨"bad", 2, none, none, none, "p", false, false, false⟩,
      List.mem_cons_of_mem _ (List.mem_cons_self _ _), by simp⟩

/-! ### Claim C4 -/

theorem window_eq (xs : List ℚ) (i : Nat) (h6 : 6 ≤ i) (hi : i < xs.length) :
    (xs.drop (i + 1 - 7)).take 7 = (List.range 7).map (fun k => xs.getD (i - 6 + k) 0) := by
  apply List.ext_getElem?
  intro n
  by_cases hn : n < 7
  · rw [List.getElem?_take, if_pos hn, List.getElem?_drop]
    have harg : i + 1 - 7 + n = i - 6 + n := by omega
    have hlt : i - 6 + n < xs.length := by omega
    rw [harg, List.getElem?_eq_getElem hlt]
    rw [List.getElem?_map, List.getElem?_range hn]
    have hgd : xs.getD (i - 6 + n) 0 = xs[i - 6 + n] := by
      rw [List.getD_eq_getElem?_getD, List.getElem?_eq_getElem hlt]
      rfl
    show some (xs[i - 6 + n]) = some (xs.getD (i - 6 + n) 0)
    rw [hgd]
  · rw [List.getElem?_take, if_neg hn]
    rw [List.getElem?_map, List.getElem?_eq_none (by simpa using Nat.le_of_not_lt hn)]
    rfl

/-- C4: the first six slots of the rolling series are NaN; every slot from
index 6 on is the simple mean of the seven daily values at indices i-6
through i (window aligned to bucket position); the pipeline stores exactly
the rolling transform of its daily series; and on daily values 1..10 the
rolling value at index 6 is 4. -/
theorem claim4_rolling_window :
    (∀ (xs : List ℚ) (i : Nat) (h : i < (rollingMean7 xs).length),
      (i < 6 → (rollingMean7 xs).get ⟨i, h⟩ = none) ∧
      (6 ≤ i → (rollingMean7 xs).get ⟨i, h⟩ =
        some (((List.range 7).map (fun k => xs.getD (i - 6 + k) 0)).sum / 7))) ∧
    (∀ df : List PlayEvent,
      (analyze_listening_trends df).rolling_averages.hours_played =
        rollingMean7 ((analyze_listening_trends df).daily_stats.hours_played) ∧
      (analyze_listening_trends df).rolling_averages.skip_rate =
        rollingMean7 ((analyze_listening_trends df).daily_stats.skip_rate) ∧
      (analyze_listening_trends df).rolling_averages.offline_rate =
        rollingMean7 ((analyze_listening_trends df).daily_stats.offline_rate) ∧
      (analyze_listening_trends df).rolling_averages.shuffle_rate =
        rollingMean7 ((analyze_listening_trends df).daily_stats.shuffle_rate) ∧
      (analyze_listening_trends df).rolling_averages.tracks_played =
        rollingMean7 ((analyze_listening_trends df).daily_stats.tracks_played.map
          (fun n : Nat => (n : ℚ)))) ∧
    rollingMean7 [1, 2, 3, 4, 5, 6, 7, 8, 9, 10] =
      [none, none, none, none, none, none, some 4, some 5, some 6, some 7] := by
  refine ⟨?_, ?_, ?_⟩
  · intro xs i h
    have hlen : i < xs.length := by simpa [rollingMean7] using h
    have hval : (rollingMean7 xs).get ⟨i, h⟩ =
        if i + 1 < 7 then none else some (((xs.drop (i + 1 - 7)).take 7).sum / 7) := by
      rw [List.get_eq_getElem]
      have h1 : (rollingMean7 xs)[i]? = some ((rollingMean7 xs)[i]) :=
        List.getElem?_eq_getElem h
      have h2 : (rollingMean7 xs)[i]? = some (if i + 1 < 7 then none
          else some (((xs.drop (i + 1 - 7)).take 7).sum / 7)) := by
        rw [rollingMean7, List.getElem?_map, List.getElem?_range hlen]
        rfl
      exact Option.some.inj (h1.symm.trans h2)
    constructor
    · intro h6
      rw [hval, if_pos (by omega)]
    · intro h6
      rw [hval, if_neg (by omega), window_eq xs i h6 hlen]
  · intro df
    exact ⟨rfl, rfl, rfl, rfl, rfl⟩
  · with_unfolding_all decide

/-- C4 witness: instantiating the window characterization at index 6 of the
series 1..10 gives the mean 4. -/
theorem claim4_witness :
    (rollingMean7 [1, 2, 3, 4, 5, 6, 7, 8, 9, 10]).get ⟨6, by decide⟩ =
      some ((((List.range 7).map
        (fun k => ([1, 2, 3, 4, 5, 6, 7, 8, 9, 10] : List ℚ).getD (6 - 6 + k) 0)).sum) / 7) :=
  (claim4_rolling_window.1 [1, 2, 3, 4, 5, 6, 7, 8, 9, 10] 6 (by decide)).2 (by omega)

/-! ### Claim C10 -/

theorem length_trendDates (df : List PlayEvent) :
    (trendDates df).length = (df.map (fun e => dateOf e.ts)).toFinset.card := by
  rw [trendDates, (List.perm_insertionSort _ _).length_eq, length_uniqueFirst_eq_card]

theorem trendDates_sorted_lt (df : List PlayEvent) : (trendDates df).Pairwise (· < ·) := by
  have hs : (trendDates df).Pairwise (· ≤ ·) := List.sorted_insertionSort _ _
  have hnd : (trendDates df).Pairwise (· ≠ ·) :=
    (List.perm_insertionSort _ _).nodup_iff.mpr (nodup_uniqueFirst _)
  exact (hs.and hnd).imp (fun h => lt_of_le_of_ne h.1 h.2)

/-! ### Inversion of the stats computation -/

instance : IsTotal (α × Nat) (fun p q => q.2 ≤ p.2) :=
  ⟨fun a b => Nat.le_total b.2 a.2⟩

instance : IsTrans (α × Nat) (fun p q => q.2 ≤ p.2) :=
  ⟨fun _ _ _ h1 h2 => Nat.le_trans h2 h1⟩

instance : IsTotal (Nat × Nat) (fun p q => p.1 ≤ q.1) :=
  ⟨fun a b => Nat.le_total a.1 b.1⟩

instance : IsTrans (Nat × Nat) (fun p q => p.1 ≤ q.1) :=
  ⟨fun _ _ _ h1 h2 => Nat.le_trans h1 h2⟩

instance : IsTotal PlayEvent (fun a b => a.ts ≤ b.ts) :=
  ⟨fun a b => Nat.le_total a.ts b.ts⟩

instance : IsTrans PlayEvent (fun a b => a.ts ≤ b.ts) :=
  ⟨fun _ _ _ h1 h2 => Nat.le_trans h1 h2⟩

theorem orIdxmaxError_bind_some (a : α) (f : α → Except AnalyzerError β) :
    orIdxmaxError (some a) >>= f = f a := rfl

theorem orIdxmaxError_bind_none (f : α → Except AnalyzerError β) :
    orIdxmaxError (none : Option α) >>= f =
      Except.error AnalyzerError.emptySeriesIdxmax := rfl

/-- Field-level inversion of a successful run of `get_comprehensive_stats`. -/
theorem stats_fields {df : List PlayEvent} {s : Stats}
    (h : get_comprehensive_stats df = Except.ok s) :
    s.total_stats.total_tracks_played = df.length ∧
    s.listening_patterns.hourly_distribution =
      sort_index (value_counts (df.map (fun e => hourOf e.ts))) ∧
    s.listening_patterns.daily_distribution =
      value_counts (df.map (fun e => dayNameOf e.ts)) ∧
    s.listening_patterns.monthly_distribution =
      sort_index (value_counts (df.map (fun e => monthOf e.ts))) ∧
    s.session_stats.average_tracks_per_session =
      round2 (seriesMean ((sessionAgg df).map (fun p => (p.2 : ℚ)))) ∧
    s.session_stats.average_session_minutes =
      round2 (seriesMean ((sessionAgg df).map (fun p => (p.1 : ℚ))) / (1000 * 60)) ∧
    s.session_stats.total_sessions = (sessionAgg df).length ∧
    s.top_content.top_artists =
      (value_counts (df.filterMap PlayEvent.master_metadata_album_artist_name)).take 10 ∧
    s.top_content.top_tracks =
      (value_counts (df.filterMap PlayEvent.master_metadata_track_name)).take 10 ∧
    s.top_content.top_albums =
      (value_counts (df.filterMap PlayEvent.master_metadata_album_album_name)).take 10 := by
  cases h1 : idxmax (sort_index (value_counts (df.map (fun e => hourOf e.ts)))) with
  | none =>
    rw [get_comprehensive_stats] at h
    simp only [h1, orIdxmaxError_bind_none] at h
    exact Except.noConfusion h
  | some ph =>
    cases h2 : idxmax (value_counts (df.map (fun e => dayNameOf e.ts))) with
    | none =>
      rw [get_comprehensive_stats] at h
      simp only [h1, h2, orIdxmaxError_bind_some, orIdxmaxError_bind_none] at h
      exact Except.noConfusion h
    | some pd =>
      rw [get_comprehensive_stats] at h
      simp only [h1, h2, orIdxmaxError_bind_some] at h
      rw [Except.ok.injEq] at h
      subst h
      exact ⟨rfl, rfl, rfl, rfl, rfl, rfl, rfl, rfl, rfl, rfl⟩

theorem idxmax_isSome {l : List (α × Nat)} (h : l ≠ []) : ∃ a, idxmax l = some a := by
  cases l with
  | nil => exact absurd rfl h
  | cons p rest =>
    refine ⟨idxmaxGo p.1 p.2 rest, ?_⟩
    cases p
    rfl

theorem value_counts_ne_nil [DecidableEq α] {l : List α} (h : l ≠ []) :
    value_counts l ≠ [] := by
  have hlen : 0 < (value_counts l).length := by
    rw [length_value_counts]
    cases l with
    | nil => exact absurd rfl h
    | cons a t => rw [uniqueFirst]; simp
  exact List.ne_nil_of_length_pos hlen

theorem sort_index_ne_nil {l : List (Nat × Nat)} (h : l ≠ []) : sort_index l ≠ [] := by
  have hlen : 0 < (sort_index l).length := by
    rw [sort_index, (List.perm_insertionSort _ _).length_eq]
    exact List.length_pos.mpr h
  exact List.ne_nil_of_length_pos hlen

/-- A non-empty frame always produces a report: both `idxmax` calls succeed. -/
theorem get_comprehensive_stats_isOk {df : List PlayEvent} (h : df ≠ []) :
    ∃ s, get_comprehensive_stats df = Except.ok s := by
  have hmap : ∀ f : PlayEvent → Nat, df.map f ≠ [] := by
    intro f
    cases df with
    | nil => exact absurd rfl h
    | cons e t => simp
  obtain ⟨ph, hph⟩ :=
    idxmax_isSome (sort_index_ne_nil (value_counts_ne_nil (hmap (fun e => hourOf e.ts))))
  have hdmap : df.map (fun e => dayNameOf e.ts) ≠ [] := by
    cases df with
    | nil => exact absurd rfl h
    | cons e t => simp
  obtain ⟨pd, hpd⟩ := idxmax_isSome (value_counts_ne_nil hdmap)
  cases hg : get_comprehensive_stats df with
  | ok s => exact ⟨s, rfl⟩
  | error e =>
    rw [get_comprehensive_stats] at hg
    simp only [hph, hpd, orIdxmaxError_bind_some] at hg
    exact Except.noConfusion hg

/-! ### Claim C6 -/

/-- C6: for every input on which the report is produced, the hourly, daily
and monthly distribution counts each sum to `total_tracks_played`, which is
the number of input records. -/
theorem claim6_distribution_sums (df : List PlayEvent) (s : Stats)
    (h : get_comprehensive_stats df = Except.ok s) :
    (s.listening_patterns.hourly_distribution.map Prod.snd).sum =
        s.total_stats.total_tracks_played ∧
    (s.listening_patterns.daily_distribution.map Prod.snd).sum =
        s.total_stats.total_tracks_played ∧
    (s.listening_patterns.monthly_distribution.map Prod.snd).sum =
        s.total_stats.total_tracks_played ∧
    s.total_stats.total_tracks_played = df.length := by
  obtain ⟨ht, hh, hd, hm, _⟩ := stats_fields h
  refine ⟨?_, ?_, ?_, ht⟩
  · rw [hh, ht, sum_snd_sort_index, sum_snd_value_counts, List.length_map]
  · rw [hd, ht, sum_snd_value_counts, List.length_map]
  · rw [hm, ht, sum_snd_sort_index, sum_snd_value_counts, List.length_map]

/-- A fully populated one-record dataset used as concrete witness input. -/
def evFull : PlayEvent :=
  { ts := 100, ms_played := 60000, master_metadata_track_name := some "t",
    master_metadata_album_artist_name := some "a",
    master_metadata_album_album_name := some "b", platform := "ios",
    skipped := false, offline := false, shuffle := false }

/-- C6 witness: a concrete one-record dataset, where all three distribution
sums equal the record count 1. -/
theorem claim6_witness :
    ∃ s, get_comprehensive_stats [evFull] = Except.ok s ∧
      ((s.listening_patterns.hourly_distribution.map Prod.snd).sum =
          s.total_stats.total_tracks_played ∧
        (s.listening_patterns.daily_distribution.map Prod.snd).sum =
          s.total_stats.total_tracks_played ∧
        (s.listening_patterns.monthly_distribution.map Prod.snd).sum =
          s.total_stats.total_tracks_played ∧
        s.total_stats.total_tracks_played = 1) := by
  have hne : ([evFull] : List PlayEvent) ≠ [] := by simp
  obtain ⟨s, hs⟩ := get_comprehensive_stats_isOk hne
  exact ⟨s, hs, claim6_distribution_sums _ s hs⟩

/-! ### Claim C7 -/

/-- The eleven distinct artist names of the specification's top-10 example. -/
def exArtists : List String :=
  ["a01", "a02", "a03", "a04", "a05", "a06", "a07", "a08", "a09", "a10", "a11"]

/-- C7: the top-content ranking takes the 10 most frequent distinct values
(after dropping nulls via `filterMap`) with their counts, ordered by
descending count, ties kept in first-seen order by sort stability; the
pipeline's three rankings are exactly this computation; and eleven distinct
artists played once each rank as exactly ten entries, all with count 1, in
first-seen order. -/
theorem claim7_top_content :
    (∀ l : List String,
      ((value_counts l).take 10).length = min 10 (uniqueFirst l).length ∧
      ((value_counts l).take 10).Pairwise (fun p q => q.2 ≤ p.2) ∧
      (∀ p ∈ (value_counts l).take 10, p.1 ∈ l ∧ p.2 = l.count p.1) ∧
      (∀ a ∈ l, a ∉ ((value_counts l).take 10).map Prod.fst →
        ∀ p ∈ (value_counts l).take 10, l.count a ≤ p.2)) ∧
    (∀ (df : List PlayEvent) (s : Stats), get_comprehensive_stats df = Except.ok s →
      s.top_content.top_artists =
        (value_counts (df.filterMap PlayEvent.master_metadata_album_artist_name)).take 10 ∧
      s.top_content.top_tracks =
        (value_counts (df.filterMap PlayEvent.master_metadata_track_name)).take 10 ∧
      s.top_content.top_albums =
        (value_counts (df.filterMap PlayEvent.master_metadata_album_album_name)).take 10) ∧
    (value_counts exArtists).take 10 =
      [("a01", 1), ("a02", 1), ("a03", 1), ("a04", 1), ("a05", 1),
       ("a06", 1), ("a07", 1), ("a08", 1), ("a09", 1), ("a10", 1)] := by
  refine ⟨?_, ?_, ?_⟩
  · intro l
    have hperm : (value_counts l).Perm ((uniqueFirst l).map (fun a => (a, l.count a))) :=
      List.perm_insertionSort _ _
    have hsorted : (value_counts l).Pairwise (fun p q => q.2 ≤ p.2) :=
      List.sorted_insertionSort _ _
    have hmemvc : ∀ p ∈ value_counts l, p.1 ∈ l ∧ p.2 = l.count p.1 := by
      intro p hp
      have hp2 := hperm.mem_iff.mp hp
      rcases List.mem_map.mp hp2 with ⟨a, ha, rfl⟩
      exact ⟨mem_uniqueFirst.mp ha, rfl⟩
    refine ⟨?_, hsorted.sublist (List.take_sublist _ _), ?_, ?_⟩
    · rw [List.length_take, length_value_counts]
    · intro p hp
      exact hmemvc p ((List.take_sublist _ _).subset hp)
    · intro a hal hnot p hp
      have havc : (a, l.count a) ∈ value_counts l := by
        apply hperm.mem_iff.mpr
        exact List.mem_map.mpr ⟨a, mem_uniqueFirst.mpr hal, rfl⟩
      have hsplit : value_counts l =
          (value_counts l).take 10 ++ (value_counts l).drop 10 :=
        (List.take_append_drop 10 (value_counts l)).symm
      have hdrop : (a, l.count a) ∈ (value_counts l).drop 10 := by
        rcases List.mem_append.mp (hsplit ▸ havc) with hmem | hmem
        · exact absurd (List.mem_map.mpr ⟨(a, l.count a), hmem, rfl⟩) hnot
        · exact hmem
      have hcross := (List.pairwise_append.mp (hsplit ▸ hsorted)).2.2
      exact hcross p hp (a, l.count a) hdrop
  · intro df s h
    obtain ⟨_, _, _, _, _, _, _, ha, htr, hal⟩ := stats_fields h
    exact ⟨ha, htr, hal⟩
  · with_unfolding_all decide

/-- C7 witness: in the eleven-artist example, the eleventh artist is outside
the top 10, and its count does not exceed that of any ranked entry. -/
theorem claim7_witness :
    exArtists.count "a11" ≤ (("a01", 1) : String × Nat).2 :=
  (claim7_top_content.1 exArtists).2.2.2 "a11"
    (by with_unfolding_all decide)
    (by with_unfolding_all decide)
    ("a01", 1)
    (by with_unfolding_all decide)

/-- C10: `daily_stats` and `rolling_averages` carry the identical dates
sequence; within each structure all parallel arrays have the same length,
equal to the number of distinct calendar dates in the input; and the dates
are sorted strictly ascending. -/
theorem claim10_trend_shape (df : List PlayEvent) :
    (analyze_listening_trends df).daily_stats.dates =
      (analyze_listening_trends df).rolling_averages.dates ∧
    ((analyze_listening_trends df).daily_stats.dates.length =
        (df.map (fun e => dateOf e.ts)).toFinset.card ∧
      (analyze_listening_trends df).daily_stats.hours_played.length =
        (df.map (fun e => dateOf e.ts)).toFinset.card ∧
      (analyze_listening_trends df).daily_stats.tracks_played.length =
        (df.map (fun e => dateOf e.ts)).toFinset.card ∧
      (analyze_listening_trends df).daily_stats.skip_rate.length =
        (df.map (fun e => dateOf e.ts)).toFinset.card ∧
      (analyze_listening_trends df).daily_stats.offline_rate.length =
        (df.map (fun e => dateOf e.ts)).toFinset.card ∧
      (analyze_listening_trends df).daily_stats.shuffle_rate.length =
        (df.map (fun e => dateOf e.ts)).toFinset.card) ∧
    ((analyze_listening_trends df).rolling_averages.dates.length =
        (df.map (fun e => dateOf e.ts)).toFinset.card ∧
      (analyze_listening_trends df).rolling_averages.hours_played.length =
        (df.map (fun e => dateOf e.ts)).toFinset.card ∧
      (analyze_listening_trends df).rolling_averages.tracks_played.length =
        (df.map (fun e => dateOf e.ts)).toFinset.card ∧
      (analyze_listening_trends df).rolling_averages.skip_rate.length =
        (df.map (fun e => dateOf e.ts)).toFinset.card ∧
      (analyze_listening_trends df).rolling_averages.offline_rate.length =
        (df.map (fun e => dateOf e.ts)).toFinset.card ∧
      (analyze_listening_trends df).rolling_averages.shuffle_rate.length =
        (df.map (fun e => dateOf e.ts)).toFinset.card) ∧
    (analyze_listening_trends df).daily_stats.dates.Pairwise (· < ·) := by
  refine ⟨rfl, ⟨?_, ?_, ?_, ?_, ?_, ?_⟩, ⟨?_, ?_, ?_, ?_, ?_, ?_⟩, trendDates_sorted_lt df⟩
  all_goals
    simp only [analyze_listening_trends, length_rollingMean7, List.length_map,
      length_trendDates]

/-! ### Session machinery: the id-based grouping equals the recursive split -/

theorem sessionIdsGo_shift (xs : List PlayEvent) : ∀ (prev : PlayEvent) (cur k : Nat),
    sessionIdsGo prev (cur + k) xs = (sessionIdsGo prev cur xs).map (fun n => n + k) := by
  induction xs with
  | nil =>
    intro prev cur k
    rfl
  | cons e rest ih =>
    intro prev cur k
    simp only [sessionIdsGo]
    by_cases hgap : 1800 < e.ts - prev.ts
    · simp only [if_pos hgap, List.map_cons]
      have h1 : cur + k + 1 = cur + 1 + k := by omega
      rw [h1, ih]
    · simp only [if_neg hgap, List.map_cons]
      rw [ih]

theorem groupKey_cons_eq (e : PlayEvent) (l : List PlayEvent) (ids : List Nat) :
    groupKey (e :: l) (0 :: ids) 0 = e :: groupKey l ids 0 := by
  simp [groupKey, List.filter_cons]

theorem groupKey_cons_ne (e : PlayEvent) (l : List PlayEvent) (ids : List Nat)
    (i : Nat) (hi : i ≠ 0) :
    groupKey (e :: l) (0 :: ids) i = groupKey l ids i := by
  simp only [groupKey, List.zip_cons_cons, List.filter_cons]
  rw [if_neg ?hne]
  case hne =>
    simp only [decide_eq_true_eq]
    exact fun h => hi h.symm

theorem groupKey_shift (l : List PlayEvent) (ids : List Nat) (i : Nat) :
    groupKey l (ids.map (fun n => n + 1)) (i + 1) = groupKey l ids i := by
  rw [groupKey, groupKey, List.zip_map_right, List.filter_map]
  have hcong : ((fun p : PlayEvent × Nat => decide (p.2 = i + 1)) ∘
      Prod.map id (fun n => n + 1)) = fun p : PlayEvent × Nat => decide (p.2 = i) := by
    funext p
    rcases p with ⟨a, b⟩
    show decide (b + 1 = i + 1) = decide (b = i)
    exact decide_eq_decide.mpr (by omega)
  rw [hcong, List.map_map]
  apply List.map_congr_left
  intro p hp
  rfl

theorem groupKey_map_zero (l : List PlayEvent) (ids : List Nat) :
    groupKey l (ids.map (fun n => n + 1)) 0 = [] := by
  rw [groupKey, List.zip_map_right, List.filter_map]
  have hnil : List.filter ((fun p : PlayEvent × Nat => decide (p.2 = 0)) ∘
      Prod.map id (fun n => n + 1)) (l.zip ids) = [] := by
    apply List.filter_eq_nil_iff.mpr
    intro p hp
    rcases p with ⟨a, b⟩
    show ¬ (decide (b + 1 = 0) = true)
    simp
  rw [hnil]
  rfl

theorem uniqueFirst_map_add_one (ids : List Nat) :
    uniqueFirst (ids.map (fun n => n + 1)) = (uniqueFirst ids).map (fun n => n + 1) := by
  induction ids with
  | nil => rfl
  | cons a t ih =>
    simp only [List.map_cons, uniqueFirst]
    rw [ih, List.filter_map]
    congr 1
    rw [List.filter_congr (q := fun b => decide (b ≠ a)) ?hq]
    case hq =>
      intro b hb
      show decide (b + 1 ≠ a + 1) = decide (b ≠ a)
      exact decide_eq_decide.mpr (by omega)

theorem uniqueFirst_cons_cons (a : Nat) (t : List Nat) :
    uniqueFirst (a :: a :: t) = uniqueFirst (a :: t) := by
  show a :: ((a :: (uniqueFirst t).filter (fun b => decide (b ≠ a))).filter
      (fun b => decide (b ≠ a))) = _
  rw [List.filter_cons, if_neg (by simp), List.filter_filter]
  show _ = a :: (uniqueFirst t).filter (fun b => decide (b ≠ a))
  congr 1
  apply List.filter_congr
  intro b hb
  simp

theorem filter_ne_zero_of_map_add_one (ids : List Nat) :
    (uniqueFirst (ids.map (fun n => n + 1))).filter (fun b => decide (b ≠ 0)) =
      uniqueFirst (ids.map (fun n => n + 1)) := by
  apply List.filter_eq_self.mpr
  intro b hb
  rcases List.mem_map.mp (mem_uniqueFirst.mp hb) with ⟨c, _, rfl⟩
  simp

theorem splitSessions_cons_cons (e1 e2 : PlayEvent) (rest : List PlayEvent) :
    splitSessions (e1 :: e2 :: rest) =
      match splitSessions (e2 :: rest) with
      | [] => [[e1]]
      | s :: ss => if 1800 < e2.ts - e1.ts then [e1] :: s :: ss else (e1 :: s) :: ss := rfl

theorem splitSessions_cons : ∀ (rest : List PlayEvent) (e : PlayEvent),
    ∃ u vs, splitSessions (e :: rest) = (e :: u) :: vs := by
  intro rest
  induction rest with
  | nil =>
    intro e
    exact ⟨[], [], rfl⟩
  | cons e2 r2 ih =>
    intro e
    rcases ih e2 with ⟨u, vs, hu⟩
    by_cases hgap : 1800 < e2.ts - e.ts
    · refine ⟨[], (e2 :: u) :: vs, ?_⟩
      rw [splitSessions_cons_cons, hu]
      simp only [if_pos hgap]
    · refine ⟨e2 :: u, vs, ?_⟩
      rw [splitSessions_cons_cons, hu]
      simp only [if_neg hgap]

theorem splitSessions_eq_cut {e1 e2 : PlayEvent} {rest s : List PlayEvent}
    {ss : List (List PlayEvent)} (h : splitSessions (e2 :: rest) = s :: ss)
    (hgap : 1800 < e2.ts - e1.ts) :
    splitSessions (e1 :: e2 :: rest) = [e1] :: s :: ss := by
  rw [splitSessions_cons_cons, h]
  simp only [if_pos hgap]

theorem splitSessions_eq_nocut {e1 e2 : PlayEvent} {rest s : List PlayEvent}
    {ss : List (List PlayEvent)} (h : splitSessions (e2 :: rest) = s :: ss)
    (hgap : ¬ 1800 < e2.ts - e1.ts) :
    splitSessions (e1 :: e2 :: rest) = (e1 :: s) :: ss := by
  rw [splitSessions_cons_cons, h]
  simp only [if_neg hgap]

/-- The pipeline's id-based `groupby` grouping coincides with the structural
gap-splitting of the same list. -/
theorem groupBySessionId_eq_splitSessions (l : List PlayEvent) :
    groupBySessionId l = splitSessions l := by
  induction l with
  | nil => rfl
  | cons e1 tail ih =>
    cases tail with
    | nil => rfl
    | cons e2 rest =>
      have hids2 : sessionIds (e2 :: rest) = 0 :: sessionIdsGo e2 0 rest := rfl
      by_cases hgap : 1800 < e2.ts - e1.ts
      · have hshift : sessionIdsGo e2 (0 + 1) rest =
            (sessionIdsGo e2 0 rest).map (fun n => n + 1) := sessionIdsGo_shift rest e2 0 1
        have hids : sessionIds (e1 :: e2 :: rest) =
            0 :: (sessionIds (e2 :: rest)).map (fun n => n + 1) := by
          show 0 :: sessionIdsGo e1 0 (e2 :: rest) = _
          simp only [sessionIdsGo, if_pos hgap]
          rw [hshift]
          rfl
        have huf : uniqueFirst (sessionIds (e1 :: e2 :: rest)) =
            0 :: (uniqueFirst (sessionIds (e2 :: rest))).map (fun n => n + 1) := by
          rw [hids]
          show 0 :: (uniqueFirst ((sessionIds (e2 :: rest)).map (fun n => n + 1))).filter
              (fun b => decide (b ≠ 0)) = _
          rw [filter_ne_zero_of_map_add_one, uniqueFirst_map_add_one]
        rw [groupBySessionId, huf, List.map_cons]
        have hhead : groupKey (e1 :: e2 :: rest) (sessionIds (e1 :: e2 :: rest)) 0 = [e1] := by
          rw [hids, groupKey_cons_eq, groupKey_map_zero]
        have htail : ∀ i ∈ (uniqueFirst (sessionIds (e2 :: rest))).map (fun n => n + 1),
            groupKey (e1 :: e2 :: rest) (sessionIds (e1 :: e2 :: rest)) i =
              groupKey (e1 :: e2 :: rest) (sessionIds (e1 :: e2 :: rest)) i := fun i _ => rfl
        have htail2 : ((uniqueFirst (sessionIds (e2 :: rest))).map (fun n => n + 1)).map
              (groupKey (e1 :: e2 :: rest) (sessionIds (e1 :: e2 :: rest))) =
            groupBySessionId (e2 :: rest) := by
          rw [List.map_map, groupBySessionId]
          apply List.map_congr_left
          intro i hi
          show groupKey (e1 :: e2 :: rest) (sessionIds (e1 :: e2 :: rest)) (i + 1) =
            groupKey (e2 :: rest) (sessionIds (e2 :: rest)) i
          rw [hids, groupKey_cons_ne _ _ _ _ (by omega), groupKey_shift]
        rw [hhead, htail2, ih]
        rcases splitSessions_cons rest e2 with ⟨u, vs, hu⟩
        rw [hu]
        exact (splitSessions_eq_cut hu hgap).symm
      · have hids : sessionIds (e1 :: e2 :: rest) = 0 :: sessionIds (e2 :: rest) := by
          show 0 :: sessionIdsGo e1 0 (e2 :: rest) = _
          simp only [sessionIdsGo, if_neg hgap]
          rfl
        have huf : uniqueFirst (sessionIds (e1 :: e2 :: rest)) =
            uniqueFirst (sessionIds (e2 :: rest)) := by
          rw [hids, hids2]
          exact uniqueFirst_cons_cons 0 _
        have hu2 : uniqueFirst (sessionIds (e2 :: rest)) =
            0 :: (uniqueFirst (sessionIdsGo e2 0 rest)).filter (fun b => decide (b ≠ 0)) := by
          rw [hids2]
          rfl
        rw [groupBySessionId, huf, hu2, List.map_cons]
        have hhead : groupKey (e1 :: e2 :: rest) (sessionIds (e1 :: e2 :: rest)) 0 =
            e1 :: groupKey (e2 :: rest) (sessionIds (e2 :: rest)) 0 := by
          rw [hids]
          exact groupKey_cons_eq _ _ _
        have htail : ∀ i ∈ (uniqueFirst (sessionIdsGo e2 0 rest)).filter
              (fun b => decide (b ≠ 0)),
            groupKey (e1 :: e2 :: rest) (sessionIds (e1 :: e2 :: rest)) i =
              groupKey (e2 :: rest) (sessionIds (e2 :: rest)) i := by
          intro i hi
          have hine : i ≠ 0 := by simpa using (List.mem_filter.mp hi).2
          rw [hids]
          exact groupKey_cons_ne _ _ _ i hine
        rw [hhead, List.map_congr_left htail]
        rcases splitSessions_cons rest e2 with ⟨u, vs, hu⟩
        have hgb : groupKey (e2 :: rest) (sessionIds (e2 :: rest)) 0 ::
            ((uniqueFirst (sessionIdsGo e2 0 rest)).filter (fun b => decide (b ≠ 0))).map
              (groupKey (e2 :: rest) (sessionIds (e2 :: rest))) = (e2 :: u) :: vs := by
          have hx : groupBySessionId (e2 :: rest) = (e2 :: u) :: vs := ih.trans hu
          rw [groupBySessionId, hu2, List.map_cons] at hx
          exact hx
        obtain ⟨h0, htl⟩ := List.cons_eq_cons.mp hgb
        rw [h0, htl]
        exact (splitSessions_eq_nocut hu hgap).symm

/-! ### Structural properties of the session split -/

theorem splitSessions_flatten : ∀ s : List PlayEvent, (splitSessions s).flatten = s := by
  intro s
  induction s with
  | nil => rfl
  | cons e1 tail ih =>
    cases tail with
    | nil => rfl
    | cons e2 rest =>
      rcases splitSessions_cons rest e2 with ⟨u, vs, hu⟩
      rw [hu] at ih
      by_cases hgap : 1800 < e2.ts - e1.ts
      · rw [splitSessions_eq_cut hu hgap]
        simp only [List.flatten_cons, List.cons_append, List.singleton_append] at ih ⊢
        rw [ih]
        rfl
      · rw [splitSessions_eq_nocut hu hgap]
        simp only [List.flatten_cons, List.cons_append, List.singleton_append] at ih ⊢
        rw [ih]

theorem splitSessions_mem_props : ∀ s : List PlayEvent, ∀ t ∈ splitSessions s,
    t ≠ [] ∧ t.Chain' (fun a b => b.ts - a.ts ≤ 1800) := by
  intro s
  induction s with
  | nil =>
    intro t ht
    simp [splitSessions] at ht
  | cons e1 tail ih =>
    cases tail with
    | nil =>
      intro t ht
      simp only [splitSessions, List.mem_singleton] at ht
      subst ht
      exact ⟨by simp, by simp⟩
    | cons e2 rest =>
      intro t ht
      rcases splitSessions_cons rest e2 with ⟨u, vs, hu⟩
      by_cases hgap : 1800 < e2.ts - e1.ts
      · rw [splitSessions_eq_cut hu hgap] at ht
        rcases List.mem_cons.mp ht with rfl | ht2
        · exact ⟨by simp, by simp⟩
        · exact ih t (by rw [hu]; exact ht2)
      · rw [splitSessions_eq_nocut hu hgap] at ht
        rcases List.mem_cons.mp ht with rfl | ht2
        · have hc := (ih (e2 :: u) (by rw [hu]; exact List.mem_cons_self _ _)).2
          exact ⟨by simp, List.chain'_cons.mpr ⟨by omega, hc⟩⟩
        · exact ih t (by rw [hu]; exact List.mem_cons_of_mem _ ht2)

/-- The gap between two consecutive sessions: from the last event of the
earlier session to the first event of the later one, strictly more than 30
minutes. -/
def sessionBoundary (t1 t2 : List PlayEvent) : Prop :=
  ∀ a ∈ t1.getLast?, ∀ b ∈ t2.head?, 1800 < b.ts - a.ts

theorem splitSessions_chain_boundary : ∀ s : List PlayEvent,
    (splitSessions s).Chain' sessionBoundary := by
  intro s
  induction s with
  | nil => simp [splitSessions]
  | cons e1 tail ih =>
    cases tail with
    | nil => simp [splitSessions]
    | cons e2 rest =>
      rcases splitSessions_cons rest e2 with ⟨u, vs, hu⟩
      rw [hu] at ih
      by_cases hgap : 1800 < e2.ts - e1.ts
      · rw [splitSessions_eq_cut hu hgap]
        refine List.chain'_cons.mpr ⟨?_, ih⟩
        intro a ha b hb
        simp only [List.getLast?_singleton, Option.mem_some_iff] at ha
        simp only [List.head?_cons, Option.mem_some_iff] at hb
        subst ha
        subst hb
        omega
      · rw [splitSessions_eq_nocut hu hgap]
        rcases List.chain'_cons'.mp ih with ⟨hnext, hvs⟩
        refine List.chain'_cons'.mpr ⟨?_, hvs⟩
        intro t2 ht2 a ha b hb
        apply hnext t2 ht2 a ?_ b hb
        rw [List.getLast?_cons_cons] at ha
        exact ha

/-! ### Claim C3 -/

/-- First event of the specification's three-event example (time 0). -/
def ev1 : PlayEvent :=
  { ts := 0, ms_played := 1000, master_metadata_track_name := some "t1",
    master_metadata_album_artist_name := some "x",
    master_metadata_album_album_name := some "y", platform := "web",
    skipped := false, offline := false, shuffle := false }

/-- Second event, 40 minutes after the first. -/
def ev2 : PlayEvent :=
  { ts := 2400, ms_played := 1000, master_metadata_track_name := some "t2",
    master_metadata_album_artist_name := some "x",
    master_metadata_album_album_name := some "y", platform := "web",
    skipped := false, offline := false, shuffle := false }

/-- Third event, 10 minutes after the second. -/
def ev3 : PlayEvent :=
  { ts := 3000, ms_played := 1000, master_metadata_track_name := some "t3",
    master_metadata_album_artist_name := some "x",
    master_metadata_album_album_name := some "y", platform := "web",
    skipped := false, offline := false, shuffle := false }

/-- C3: segmentation first sorts by timestamp and then cuts exactly at gaps
strictly over 30 minutes: the sessions concatenate back to the sorted list,
consecutive events within one session are at most 1800 seconds apart,
consecutive sessions are more than 1800 seconds apart, and the three-event
example (gaps of 40 and 10 minutes) yields exactly the sessions
session0 = first event and session1 = second and third events. -/
theorem claim3_session_boundaries :
    (∀ l : List PlayEvent,
      (sessionPartition l).flatten = sort_values l ∧
      (∀ t ∈ sessionPartition l, t ≠ [] ∧
        t.Chain' (fun a b => b.ts - a.ts ≤ 1800)) ∧
      (sessionPartition l).Chain' sessionBoundary) ∧
    sessionPartition [ev1, ev2, ev3] = [[ev1], [ev2, ev3]] := by
  constructor
  · intro l
    rw [sessionPartition, groupBySessionId_eq_splitSessions]
    exact ⟨splitSessions_flatten _, splitSessions_mem_props _, splitSessions_chain_boundary _⟩
  · decide

/-- C3 witness: applying the characterization to the concrete example list,
the session holding the second and third events has its inner 10-minute gap
within the 30-minute threshold. -/
theorem claim3_witness :
    ([ev2, ev3] : List PlayEvent).Chain' (fun a b => b.ts - a.ts ≤ 1800) :=
  (((claim3_session_boundaries.1 [ev1, ev2, ev3]).2.1 [ev2, ev3]
    (by decide))).2

/-! ### Claim C2 -/

/-- A single event whose track name is null (podcast-style row). -/
def evNull : PlayEvent :=
  { ts := 0, ms_played := 60000, master_metadata_track_name := none,
    master_metadata_album_artist_name := some "A",
    master_metadata_album_album_name := none, platform := "web",
    skipped := false, offline := false, shuffle := false }

/-- The mean of per-session event counts as the specification words it:
every event of a session is counted, whether or not its track name is null. -/
def specMeanSessionEventCounts (df : List PlayEvent) : ℚ :=
  seriesMean ((sessionPartition df).map (fun t => (t.length : ℚ)))

/-- C2 counterexample: on a single event with a null track name the pipeline
reports `average_tracks_per_session = 0` (the `count` aggregator skips
nulls), while the mean of per-session event counts demanded by the claim is
1 — so the two disagree on this non-empty input. -/
theorem claim2_counterexample :
    (get_comprehensive_stats [evNull]).toOption.map
        (fun s => s.session_stats.average_tracks_per_session) = some 0 ∧
    specMeanSessionEventCounts [evNull] = 1 := by
  with_unfolding_all decide

/-- C2 (amended): `average_tracks_per_session` is the rounded mean over
sessions of the number of events in the session whose track name is
non-null (pandas `count` skips nulls), and `total_sessions` is the number of
sessions of the gap-split of the time-sorted input. -/
theorem claim2_avg_tracks_amended (df : List PlayEvent) (s : Stats)
    (h : get_comprehensive_stats df = Except.ok s) :
    s.session_stats.average_tracks_per_session =
      round2 (seriesMean ((splitSessions (sort_values df)).map
        (fun t => ((t.countP (fun e => e.master_metadata_track_name.isSome)) : ℚ)))) ∧
    s.session_stats.total_sessions = (splitSessions (sort_values df)).length := by
  obtain ⟨_, _, _, _, havg, _, hcount, _⟩ := stats_fields h
  constructor
  · rw [havg, sessionAgg, sessionPartition, groupBySessionId_eq_splitSessions,
      List.map_map]
    rfl
  · rw [hcount, sessionAgg, sessionPartition, groupBySessionId_eq_splitSessions,
      List.length_map]

/-- C2 witness: the amended characterization instantiated on the concrete
one-record null-track dataset. -/
theorem claim2_witness :
    ∃ s, get_comprehensive_stats [evNull] = Except.ok s ∧
      (s.session_stats.average_tracks_per_session =
          round2 (seriesMean ((splitSessions (sort_values [evNull])).map
            (fun t => ((t.countP (fun e => e.master_metadata_track_name.isSome)) : ℚ)))) ∧
        s.session_stats.total_sessions = (splitSessions (sort_values [evNull])).length) := by
  have hne : ([evNull] : List PlayEvent) ≠ [] := by simp
  obtain ⟨s, hs⟩ := get_comprehensive_stats_isOk hne
  exact ⟨s, hs, claim2_avg_tracks_amended _ s hs⟩

/-! ### Claim C8: permutation invariance of the session partition -/

theorem takeWhile_eq_filter_of_sorted (t0 : Nat) :
    ∀ s : List PlayEvent, s.Pairwise (fun a b => a.ts ≤ b.ts) →
    (∀ e ∈ s, t0 ≤ e.ts) →
    s.takeWhile (fun e => decide (e.ts = t0)) = s.filter (fun e => decide (e.ts = t0)) := by
  intro s
  induction s with
  | nil =>
    intro _ _
    rfl
  | cons a t ih =>
    intro hp hmin
    by_cases ha : a.ts = t0
    · rw [List.takeWhile_cons, List.filter_cons, if_pos (by simp [ha]),
        if_pos (by simp [ha])]
      congr 1
      exact ih (List.pairwise_cons.mp hp).2 (fun e he => hmin e (List.mem_cons_of_mem _ he))
    · rw [List.takeWhile_cons, List.filter_cons, if_neg (by simp [ha]),
        if_neg (by simp [ha])]
      symm
      apply List.filter_eq_nil_iff.mpr
      intro e he
      have h1 : a.ts ≤ e.ts := (List.pairwise_cons.mp hp).1 e he
      have h2 : t0 ≤ a.ts := hmin a (List.mem_cons_self _ _)
      simp only [decide_eq_true_eq]
      omega

theorem dropWhile_eq_filter_of_sorted (t0 : Nat) :
    ∀ s : List PlayEvent, s.Pairwise (fun a b => a.ts ≤ b.ts) →
    (∀ e ∈ s, t0 ≤ e.ts) →
    s.dropWhile (fun e => decide (e.ts = t0)) = s.filter (fun e => decide (e.ts ≠ t0)) := by
  intro s
  induction s with
  | nil =>
    intro _ _
    rfl
  | cons a t ih =>
    intro hp hmin
    by_cases ha : a.ts = t0
    · rw [List.dropWhile_cons, List.filter_cons, if_pos (by simp [ha]),
        if_neg (by simp [ha])]
      exact ih (List.pairwise_cons.mp hp).2 (fun e he => hmin e (List.mem_cons_of_mem _ he))
    · rw [List.dropWhile_cons, List.filter_cons, if_neg (by simp [ha]),
        if_pos (by simp [ha])]
      congr 1
      symm
      apply List.filter_eq_self.mpr
      intro e he
      have h1 : a.ts ≤ e.ts := (List.pairwise_cons.mp hp).1 e he
      have h2 : t0 ≤ a.ts := hmin a (List.mem_cons_self _ _)
      simp only [ne_eq, decide_eq_true_eq]
      omega

theorem splitSessions_block_nil (x : PlayEvent) :
    ∀ b : List PlayEvent, (∀ e ∈ b, e.ts = x.ts) →
    splitSessions (x :: b) = [x :: b] := by
  intro b
  induction b generalizing x with
  | nil =>
    intro _
    rfl
  | cons y b2 ih =>
    intro hb
    have hy : y.ts = x.ts := hb y (List.mem_cons_self _ _)
    have hin : splitSessions (y :: b2) = (y :: b2) :: [] :=
      ih y (fun e he => (hb e (List.mem_cons_of_mem _ he)).trans hy.symm)
    rw [splitSessions_eq_nocut hin (by omega)]

theorem splitSessions_block_cut (x : PlayEvent) (e : PlayEvent) (r : List PlayEvent)
    (hgap : 1800 < e.ts - x.ts) :
    ∀ b : List PlayEvent, (∀ a ∈ b, a.ts = x.ts) →
    splitSessions (x :: b ++ e :: r) = (x :: b) :: splitSessions (e :: r) := by
  intro b
  induction b generalizing x with
  | nil =>
    intro _
    rcases splitSessions_cons r e with ⟨u, vs, hu⟩
    show splitSessions (x :: e :: r) = _
    rw [splitSessions_eq_cut hu hgap, hu]
  | cons y b2 ih =>
    intro hb
    have hy : y.ts = x.ts := hb y (List.mem_cons_self _ _)
    have hin : splitSessions (y :: (b2 ++ e :: r)) = (y :: b2) :: splitSessions (e :: r) :=
      ih y (by omega) (fun a ha => (hb a (List.mem_cons_of_mem _ ha)).trans hy.symm)
    show splitSessions (x :: y :: (b2 ++ e :: r)) = _
    rw [splitSessions_eq_nocut hin (show ¬ 1800 < y.ts - x.ts by omega)]

theorem splitSessions_block_nocut (x : PlayEvent) (e : PlayEvent) (r : List PlayEvent)
    (hgap : ¬ 1800 < e.ts - x.ts) (s : List PlayEvent) (ss : List (List PlayEvent))
    (hsr : splitSessions (e :: r) = s :: ss) :
    ∀ b : List PlayEvent, (∀ a ∈ b, a.ts = x.ts) →
    splitSessions (x :: b ++ e :: r) = (x :: b ++ s) :: ss := by
  intro b
  induction b generalizing x with
  | nil =>
    intro _
    show splitSessions (x :: e :: r) = _
    rw [splitSessions_eq_nocut hsr hgap]
    rfl
  | cons y b2 ih =>
    intro hb
    have hy : y.ts = x.ts := hb y (List.mem_cons_self _ _)
    have hin : splitSessions (y :: (b2 ++ e :: r)) = ((y :: b2) ++ s) :: ss :=
      ih y (by omega) (fun a ha => (hb a (List.mem_cons_of_mem _ ha)).trans hy.symm)
    show splitSessions (x :: y :: (b2 ++ e :: r)) = _
    rw [splitSessions_eq_nocut hin (show ¬ 1800 < y.ts - x.ts by omega)]
    rfl

/-- Two time-sorted arrangements of the same multiset of events split into
pointwise-permuted sessions. -/
theorem sessions_perm_aux : ∀ (n : Nat) (s1 s2 : List PlayEvent), s1.length ≤ n →
    s1.Pairwise (fun a b => a.ts ≤ b.ts) → s2.Pairwise (fun a b => a.ts ≤ b.ts) →
    s1.Perm s2 → List.Forall₂ List.Perm (splitSessions s1) (splitSessions s2) := by
  intro n
  induction n with
  | zero =>
    intro s1 s2 hlen _ _ hperm
    have h1 : s1 = [] := List.eq_nil_of_length_eq_zero (Nat.le_zero.mp hlen)
    subst h1
    have h2 : s2 = [] := List.perm_nil.mp hperm.symm
    subst h2
    exact List.Forall₂.nil
  | succ n ih =>
    intro s1 s2 hlen hs1 hs2 hperm
    cases s1 with
    | nil =>
      have h2 : s2 = [] := List.perm_nil.mp hperm.symm
      subst h2
      exact List.Forall₂.nil
    | cons x t1 =>
      cases s2 with
      | nil => exact absurd (List.perm_nil.mp hperm) (by simp)
      | cons x2 t2 =>
        have hmap : (x :: t1).map PlayEvent.ts = (x2 :: t2).map PlayEvent.ts :=
          List.eq_of_perm_of_sorted (hperm.map _)
            (List.pairwise_map.mpr hs1) (List.pairwise_map.mpr hs2)
        simp only [List.map_cons, List.cons_eq_cons] at hmap
        obtain ⟨hx2, hmapt⟩ := hmap
        have hmin1 : ∀ e ∈ x :: t1, x.ts ≤ e.ts := by
          intro e he
          rcases List.mem_cons.mp he with rfl | he2
          · exact le_refl _
          · exact (List.pairwise_cons.mp hs1).1 e he2
        have hmin2 : ∀ e ∈ x2 :: t2, x.ts ≤ e.ts := fun e he =>
          hmin1 e (hperm.mem_iff.mpr he)
        have ht1p : t1.Pairwise (fun a b => a.ts ≤ b.ts) := (List.pairwise_cons.mp hs1).2
        have ht2p : t2.Pairwise (fun a b => a.ts ≤ b.ts) := (List.pairwise_cons.mp hs2).2
        have hb1 : (x :: t1).takeWhile (fun e => decide (e.ts = x.ts)) =
            x :: t1.takeWhile (fun e => decide (e.ts = x.ts)) := by
          rw [List.takeWhile_cons, if_pos (by simp)]
        have hb2 : (x2 :: t2).takeWhile (fun e => decide (e.ts = x.ts)) =
            x2 :: t2.takeWhile (fun e => decide (e.ts = x.ts)) := by
          rw [List.takeWhile_cons, if_pos (by simp [hx2])]
        have hd1 : (x :: t1).dropWhile (fun e => decide (e.ts = x.ts)) =
            t1.dropWhile (fun e => decide (e.ts = x.ts)) := by
          rw [List.dropWhile_cons, if_pos (by simp)]
        have hd2 : (x2 :: t2).dropWhile (fun e => decide (e.ts = x.ts)) =
            t2.dropWhile (fun e => decide (e.ts = x.ts)) := by
          rw [List.dropWhile_cons, if_pos (by simp [hx2])]
        have hbperm : (x :: t1.takeWhile (fun e => decide (e.ts = x.ts))).Perm
            (x2 :: t2.takeWhile (fun e => decide (e.ts = x.ts))) := by
          rw [← hb1, ← hb2, takeWhile_eq_filter_of_sorted x.ts _ hs1 hmin1,
            takeWhile_eq_filter_of_sorted x.ts _ hs2 hmin2]
          exact hperm.filter _
        have hrperm : (t1.dropWhile (fun e => decide (e.ts = x.ts))).Perm
            (t2.dropWhile (fun e => decide (e.ts = x.ts))) := by
          rw [← hd1, ← hd2, dropWhile_eq_filter_of_sorted x.ts _ hs1 hmin1,
            dropWhile_eq_filter_of_sorted x.ts _ hs2 hmin2]
          exact hperm.filter _
        have hbts1 : ∀ e ∈ t1.takeWhile (fun e => decide (e.ts = x.ts)), e.ts = x.ts := by
          intro e he
          simpa using List.mem_takeWhile_imp he
        have hbts2 : ∀ e ∈ t2.takeWhile (fun e => decide (e.ts = x.ts)), e.ts = x.ts := by
          intro e he
          simpa using List.mem_takeWhile_imp he
        have hsplit1 : t1 = t1.takeWhile (fun e => decide (e.ts = x.ts)) ++
            t1.dropWhile (fun e => decide (e.ts = x.ts)) :=
          (List.takeWhile_append_dropWhile _ _).symm
        have hsplit2 : t2 = t2.takeWhile (fun e => decide (e.ts = x.ts)) ++
            t2.dropWhile (fun e => decide (e.ts = x.ts)) :=
          (List.takeWhile_append_dropWhile _ _).symm
        cases hr1 : t1.dropWhile (fun e => decide (e.ts = x.ts)) with
        | nil =>
          have hr2 : t2.dropWhile (fun e => decide (e.ts = x.ts)) = [] := by
            rw [hr1] at hrperm
            exact List.perm_nil.mp hrperm.symm
          rw [hr1, List.append_nil] at hsplit1
          rw [hr2, List.append_nil] at hsplit2
          have hss1 : splitSessions (x :: t1) = [x :: t1] :=
            splitSessions_block_nil x t1 (fun e he => hbts1 e (hsplit1 ▸ he))
          have hss2 : splitSessions (x2 :: t2) = [x2 :: t2] := by
            have := splitSessions_block_nil x2 t2
              (fun e he => ((hbts2 e (hsplit2 ▸ he)).trans hx2))
            exact this
          rw [hss1, hss2]
          exact List.Forall₂.cons hperm List.Forall₂.nil
        | cons e1 r1p =>
          cases hr2 : t2.dropWhile (fun e => decide (e.ts = x.ts)) with
          | nil =>
            rw [hr1, hr2] at hrperm
            exact absurd (List.perm_nil.mp hrperm) (by simp)
          | cons e2 r2p =>
            have hsort1 : (t1.dropWhile (fun e => decide (e.ts = x.ts))).Pairwise
                (fun a b => a.ts ≤ b.ts) :=
              List.Pairwise.sublist (List.dropWhile_sublist _) ht1p
            have hsort2 : (t2.dropWhile (fun e => decide (e.ts = x.ts))).Pairwise
                (fun a b => a.ts ≤ b.ts) :=
              List.Pairwise.sublist (List.dropWhile_sublist _) ht2p
            have hmapr : (t1.dropWhile (fun e => decide (e.ts = x.ts))).map PlayEvent.ts =
                (t2.dropWhile (fun e => decide (e.ts = x.ts))).map PlayEvent.ts :=
              List.eq_of_perm_of_sorted (hrperm.map _)
                (List.pairwise_map.mpr hsort1) (List.pairwise_map.mpr hsort2)
            rw [hr1, hr2] at hmapr
            simp only [List.map_cons, List.cons_eq_cons] at hmapr
            have hets : e1.ts = e2.ts := hmapr.1
            have hlenr : (t1.dropWhile (fun e => decide (e.ts = x.ts))).length ≤ n := by
              have hle : (t1.dropWhile (fun e => decide (e.ts = x.ts))).length ≤ t1.length :=
                (List.dropWhile_sublist _).length_le
              simp only [List.length_cons] at hlen
              omega
            have ihr := ih _ _ hlenr hsort1 hsort2 hrperm
            rw [hr1, hr2] at ihr
            rw [hr1] at hsplit1
            rw [hr2] at hsplit2
            by_cases hcut : 1800 < e1.ts - x.ts
            · have hss1 : splitSessions (x :: t1) =
                  (x :: t1.takeWhile (fun e => decide (e.ts = x.ts))) ::
                    splitSessions (e1 :: r1p) := by
                conv_lhs => rw [hsplit1]
                exact splitSessions_block_cut x e1 r1p hcut _ hbts1
              have hss2 : splitSessions (x2 :: t2) =
                  (x2 :: t2.takeWhile (fun e => decide (e.ts = x.ts))) ::
                    splitSessions (e2 :: r2p) := by
                conv_lhs => rw [hsplit2]
                exact splitSessions_block_cut x2 e2 r2p (by omega) _
                  (fun a ha => (hbts2 a ha).trans hx2)
              rw [hss1, hss2]
              exact List.Forall₂.cons hbperm ihr
            · rcases splitSessions_cons r1p e1 with ⟨u1, v1, hu1⟩
              rcases splitSessions_cons r2p e2 with ⟨u2, v2, hu2⟩
              rw [hu1, hu2] at ihr
              obtain ⟨hperm0, hforall⟩ := List.forall₂_cons.mp ihr
              have hss1 : splitSessions (x :: t1) =
                  (x :: t1.takeWhile (fun e => decide (e.ts = x.ts)) ++ (e1 :: u1)) :: v1 := by
                conv_lhs => rw [hsplit1]
                exact splitSessions_block_nocut x e1 r1p hcut _ _ hu1 _ hbts1
              have hss2 : splitSessions (x2 :: t2) =
                  (x2 :: t2.takeWhile (fun e => decide (e.ts = x.ts)) ++ (e2 :: u2)) :: v2 := by
                conv_lhs => rw [hsplit2]
                exact splitSessions_block_nocut x2 e2 r2p (by omega) _ _ hu2 _
                  (fun a ha => (hbts2 a ha).trans hx2)
              rw [hss1, hss2]
              exact List.Forall₂.cons (hbperm.append hperm0) hforall

theorem forall₂_perm_map_coe : ∀ {L1 L2 : List (List PlayEvent)},
    List.Forall₂ List.Perm L1 L2 →
    L1.map (fun t => (t : Multiset PlayEvent)) =
      L2.map (fun t => (t : Multiset PlayEvent)) := by
  intro L1 L2 h
  induction h with
  | nil => rfl
  | cons hab htl ih =>
    exact congrArg₂ List.cons (Multiset.coe_eq_coe.mpr hab) ih

/-- C8: the session partition is invariant under permutation of the input:
any reordering of the same events produces the same sessions (each session
taken as a multiset of events, since events sharing one timestamp have no
defined order). -/
theorem claim8_perm_invariant (l1 l2 : List PlayEvent) (h : l1.Perm l2) :
    (sessionPartition l1).map (fun t => (t : Multiset PlayEvent)) =
      (sessionPartition l2).map (fun t => (t : Multiset PlayEvent)) := by
  have hs1 : (sort_values l1).Pairwise (fun a b => a.ts ≤ b.ts) :=
    List.sorted_insertionSort _ _
  have hs2 : (sort_values l2).Pairwise (fun a b => a.ts ≤ b.ts) :=
    List.sorted_insertionSort _ _
  have hp : (sort_values l1).Perm (sort_values l2) :=
    (List.perm_insertionSort _ _).trans (h.trans (List.perm_insertionSort _ _).symm)
  have hf := sessions_perm_aux (sort_values l1).length _ _ le_rfl hs1 hs2 hp
  rw [sessionPartition, sessionPartition, groupBySessionId_eq_splitSessions,
    groupBySessionId_eq_splitSessions]
  exact forall₂_perm_map_coe hf

/-- C8 witness: swapping the two events of a concrete list leaves the
session partition unchanged. -/
theorem claim8_witness :
    (sessionPartition [ev1, ev2]).map (fun t => (t : Multiset PlayEvent)) =
      (sessionPartition [ev2, ev1]).map (fun t => (t : Multiset PlayEvent)) :=
  claim8_perm_invariant [ev1, ev2] [ev2, ev1] (List.Perm.swap ev2 ev1 [])

end Spotify
